import Mathlib

/-!
Shallow embedding of the JQQuant backtest engine
(`src/core/backtest_engine.py`) and of the collaborators it drives.

The repository ships only `backtest_engine.py`; the `Portfolio`,
`OrderManager` and `DataProvider` modules it imports are absent from the
sources, so those operations are modelled from the specification's
component contracts (each such definition carries a doc comment starting
with `Modelled from the spec:`).  Monetary quantities and prices are
Python floats in the code and are embedded as exact rationals (`ℚ`);
`pandas` missing values (`NaN`) are embedded as `Option.none`.
-/

namespace JQQuant

/-- Order status, from `order_manager.OrderStatus` as used by the engine:
`pending`, `filled`, `rejected` (spec §3, Order). -/
inductive OrderStatus where
  | pending
  | filled
  | rejected
deriving DecidableEq, Repr

/-- An order (spec §3): security, signed requested amount
(positive = buy, negative = sell), status, fill price / amount / time.
Fill fields are unset (`none`) until the order leaves `pending`. -/
structure Order where
  security : String
  amount : ℚ
  status : OrderStatus
  fill_price : Option ℚ
  fill_amount : Option ℚ
  fill_time : Option ℕ
deriving DecidableEq, Repr

/-- A freshly submitted (pending, unfilled) order, as appended to the
backlog by a strategy (spec §3, Order lifecycle). -/
def mkOrder (security : String) (amount : ℚ) : Order :=
  ⟨security, amount, OrderStatus.pending, none, none, none⟩

/-- A position (spec §3): security, held amount, average cost basis,
last marked price. -/
structure Position where
  security : String
  amount : ℚ
  avg_cost : ℚ
  last_price : ℚ
deriving DecidableEq, Repr

/-- The portfolio ledger (spec §3): cash, open positions, and the
parallel per-date histories of date / total value / cash. -/
structure Portfolio where
  initial_cash : ℚ
  cash : ℚ
  positions : List Position
  date_history : List ℕ
  total_value_history : List ℚ
  cash_history : List ℚ
deriving DecidableEq, Repr

/-- Modelled from the spec: `Portfolio.get_position(security)` returns
the position for the security or a not-found indicator (§4.1). -/
def Portfolio.get_position (p : Portfolio) (sec : String) : Option Position :=
  p.positions.find? (fun pos => pos.security = sec)

/-- Modelled from the spec: `Portfolio.add_position(security, amount, price)`
(§4.1): creates a position with `amount`/`price` as cost basis when none
exists, otherwise recomputes the cost basis as the amount-weighted
average and increases the amount.  No effect on cash. -/
def Portfolio.add_position (p : Portfolio) (sec : String) (amount price : ℚ) :
    Portfolio :=
  match p.get_position sec with
  | some _ =>
      { p with positions := p.positions.map (fun pos =>
          if pos.security = sec then
            { pos with
              avg_cost := (pos.amount * pos.avg_cost + amount * price)
                            / (pos.amount + amount),
              amount := pos.amount + amount }
          else pos) }
  | none => { p with positions := p.positions ++ [⟨sec, amount, price, price⟩] }

/-- Modelled from the spec: `Portfolio.remove_position(security, amount, price)`
(§4.1): decreases the held amount; the cost basis of the remainder is
unchanged; a position reaching zero is kept as a closed record. -/
def Portfolio.remove_position (p : Portfolio) (sec : String) (amount _price : ℚ) :
    Portfolio :=
  { p with positions := p.positions.map (fun pos =>
      if pos.security = sec then { pos with amount := pos.amount - amount }
      else pos) }

/-- Modelled from the spec: `Portfolio.update_prices(mapping)` (§4.1):
overwrites `last_price` of every known position whose security appears in
the mapping; unknown securities ignored; no side effect on cash. -/
def Portfolio.update_prices (p : Portfolio) (prices : List (String × ℚ)) :
    Portfolio :=
  { p with positions := p.positions.map (fun pos =>
      match prices.lookup pos.security with
      | some pr => { pos with last_price := pr }
      | none => pos) }

/-- Modelled from the spec: total value = cash + Σ over positions with
amount > 0 of (amount × last_price) (§4.1). -/
def Portfolio.total_value (p : Portfolio) : ℚ :=
  p.cash + ((p.positions.filter (fun pos => 0 < pos.amount)).map
      (fun pos => pos.amount * pos.last_price)).sum

/-- Modelled from the spec: `Portfolio.record(date)` appends the current
total value and cash to the histories, keyed by `date` (§4.1). -/
def Portfolio.record (p : Portfolio) (d : ℕ) : Portfolio :=
  { p with
    date_history := p.date_history ++ [d],
    total_value_history := p.total_value_history ++ [p.total_value],
    cash_history := p.cash_history ++ [p.cash] }

/-- Modelled from the spec: `Portfolio.get_summary()` returns cash, total
value, and total profit rate = total value / initial cash − 1 (§4.1). -/
structure Summary where
  cash : ℚ
  total_value : ℚ
  total_profit_rate : ℚ
deriving DecidableEq, Repr

/-- Modelled from the spec: see `Summary` (§4.1). -/
def Portfolio.get_summary (p : Portfolio) : Summary :=
  ⟨p.cash, p.total_value, p.total_value / p.initial_cash - 1⟩

/-- A fresh portfolio with the given initial cash (engine `__init__`). -/
def Portfolio.init (initial_cash : ℚ) : Portfolio :=
  ⟨initial_cash, initial_cash, [], [], [], []⟩

/-- The order manager (spec §4.2): commission rate, slippage, and the
append-only backlog of every order ever submitted. -/
structure OrderManager where
  commission_rate : ℚ
  slippage : ℚ
  orders : List Order
deriving DecidableEq, Repr

/-- Modelled from the spec: `OrderManager.process_order(order, current_price)`
(§4.2): a pending order always fills, a buy at `current_price × (1 + slippage)`,
a sell at `current_price × (1 − slippage)`; fill amount equals the full
requested amount; returns whether settlement occurred.  A non-pending
order is never settled again (idempotency of pending → filled). -/
def process_order (slippage : ℚ) (o : Order) (current_price : ℚ) :
    Bool × Order :=
  if o.status = OrderStatus.pending then
    let fp := if 0 < o.amount then current_price * (1 + slippage)
              else current_price * (1 - slippage)
    (true, { o with status := OrderStatus.filled,
                    fill_price := some fp,
                    fill_amount := some o.amount })
  else (false, o)

/-- Modelled from the spec: `OrderManager.get_commission(order)` =
|fill_amount × fill_price| × commission_rate (§4.2). -/
def get_commission (rate : ℚ) (o : Order) : ℚ :=
  |o.fill_amount.getD 0 * o.fill_price.getD 0| * rate

/-- Modelled from the spec: `OrderManager.get_filled_orders()` returns, in
submission order, every order whose status is filled (§4.2). -/
def get_filled_orders (om : OrderManager) : List Order :=
  om.orders.filter (fun o => o.status = OrderStatus.filled)

/-- One row of the day's price data: a security together with its close
price; `none` embeds both a missing `close` column and a `NaN` value. -/
structure SecRow where
  security : String
  close : Option ℚ
deriving DecidableEq, Repr

/-- The day's slice of the price table, in the three shapes the code
branches on (lines 119-124, 191-204): a pandas Series (one row, no
security matching), a DataFrame carrying a `security` column, or a
DataFrame without one. -/
inductive DailyData where
  | series (row : SecRow)
  | table (rows : List SecRow)
  | plain (rows : List SecRow)
deriving DecidableEq, Repr

/-- The underlying rows of the day's slice. -/
def DailyData.rows : DailyData → List SecRow
  | DailyData.series r => [r]
  | DailyData.table rs => rs
  | DailyData.plain rs => rs

/-- `daily_data.empty` (lines 119-124). -/
def DailyData.isEmpty : DailyData → Bool
  | DailyData.series _ => false
  | DailyData.table rs => rs.isEmpty
  | DailyData.plain rs => rs.isEmpty

/-- Price resolution of `_process_orders` (lines 189-204) and of the mark
update (lines 136-159).  Only the `security`-column DataFrame branch
matches on the order's security (first matching row's close, lines
196-200); a Series takes its own close (line 193) and a DataFrame without
the column takes the first row's close (lines 201-204) — in both
single-security shapes the result does not depend on `sec` at all.
`none` embeds a missing row, a missing `close` column, or a NaN. -/
def lookupClose (daily : DailyData) (sec : String) : Option ℚ :=
  match daily with
  | DailyData.series r => r.close
  | DailyData.table rs =>
      (List.find? (fun r => r.security = sec) rs).bind (fun r => r.close)
  | DailyData.plain rs => rs.head?.bind (fun r => r.close)

/-- Engine state: the portfolio and order manager the engine exclusively
owns (`BacktestEngine.__init__`). -/
structure Engine where
  portfolio : Portfolio
  order_manager : OrderManager
deriving DecidableEq, Repr

/-- `BacktestEngine.__init__(data_provider, initial_cash, commission_rate,
slippage)`: fresh portfolio and empty order backlog. -/
def Engine.init (initial_cash commission_rate slippage : ℚ) : Engine :=
  ⟨Portfolio.init initial_cash, ⟨commission_rate, slippage, []⟩⟩

/-- Settlement of a single backlog order on one date: the body of the
`for order in pending_orders` loop of `BacktestEngine._process_orders`
(lines 185-238).  A non-pending order is never in `pending_orders`, hence
untouched; a pending order with no available price is left pending
(line 206-208); otherwise `process_order` fills it, `fill_time` is set,
and the cash/position effect is applied under the sufficiency guards of
lines 222 and 231. -/
def settleOne (rate slippage : ℚ) (date : ℕ) (daily : DailyData)
    (pf : Portfolio) (o : Order) : Portfolio × Order :=
  if o.status ≠ OrderStatus.pending then (pf, o)
  else
    match lookupClose daily o.security with
    | none => (pf, o)
    | some p =>
      let r := process_order slippage o p
      if r.1 then
        let o' := if r.2.fill_time = none then { r.2 with fill_time := some date }
                  else r.2
        let commission := get_commission rate o'
        let fa := o'.fill_amount.getD 0
        let fp := o'.fill_price.getD 0
        if 0 < fa then
          let cost := fa * fp + commission
          if cost ≤ pf.cash then
            (Portfolio.add_position { pf with cash := pf.cash - cost }
               o'.security fa fp, o')
          else (pf, o')
        else
          match pf.get_position o'.security with
          | some pos =>
            if |fa| ≤ pos.amount then
              (Portfolio.remove_position { pf with cash := pf.cash + (|fa| * fp - commission) }
                 o'.security |fa| fp, o')
            else (pf, o')
          | none => (pf, o')
      else (pf, o)

/-- Settlement of the whole backlog in submission order, threading the
portfolio (the loop of `_process_orders` over the mutable order list). -/
def settleList (rate slippage : ℚ) (date : ℕ) (daily : DailyData) :
    Portfolio → List Order → Portfolio × List Order
  | pf, [] => (pf, [])
  | pf, o :: os =>
    let r := settleOne rate slippage date daily pf o
    let rest := settleList rate slippage date daily r.1 os
    (rest.1, r.2 :: rest.2)

/-- `BacktestEngine._process_orders(date, daily_data)` (lines 179-241). -/
def processOrders (eng : Engine) (date : ℕ) (daily : DailyData) : Engine :=
  let r := settleList eng.order_manager.commission_rate eng.order_manager.slippage
    date daily eng.portfolio eng.order_manager.orders
  { eng with portfolio := r.1,
             order_manager := { eng.order_manager with orders := r.2 } }

/-- A strategy (spec §6): callbacks `before_trading_start`,
`handle_data`, `after_trading_end`.  Each callback reads the engine state
through the context, may raise an exception (`Except.error`), and submits
trades by returning orders to be appended to the OrderManager backlog
(spec §6: submission mechanism is appending an Order into the backlog). -/
structure Strategy where
  before_trading_start : ℕ → Engine → Except Unit (List Order)
  handle_data : ℕ → DailyData → Engine → Except Unit (List Order)
  after_trading_end : ℕ → Engine → Except Unit (List Order)

/-- Appending strategy-submitted orders to the backlog. -/
def Engine.submit (eng : Engine) (os : List Order) : Engine :=
  { eng with order_manager :=
      { eng.order_manager with orders := eng.order_manager.orders ++ os } }

/-- The close prices the engine collects for the mark-to-market update
(`run`, lines 136-159): for each tracked security, the day's close where
present and non-NaN, silently omitted otherwise. -/
def dailyPrices (daily : DailyData) (secs : List String) : List (String × ℚ) :=
  secs.filterMap (fun s => (lookupClose daily s).map (fun p => (s, p)))

/-- The seven-step per-date pipeline inside the `try` of `run`'s date loop
(lines 110-168): skip the date when its slice is empty (lines 119-124),
run the strategy hooks, settle orders, update marks, and record the
snapshot.  An exception escaping a step is `Except.error` carrying the
engine state at the point of the raise: every mutation already applied by
the earlier steps of the date is retained, exactly as the code's
`try`/`except` leaves it. -/
def processDate (strat : Strategy) (secs : List String) (d : ℕ)
    (daily : DailyData) (eng : Engine) : Except Engine Engine :=
  if daily.isEmpty then Except.ok eng
  else
    match strat.before_trading_start d eng with
    | Except.error _ => Except.error eng
    | Except.ok os1 =>
      let eng1 := eng.submit os1
      match strat.handle_data d daily eng1 with
      | Except.error _ => Except.error eng1
      | Except.ok os2 =>
        let eng2 := processOrders (eng1.submit os2) d daily
        let eng3 := { eng2 with
          portfolio := eng2.portfolio.update_prices (dailyPrices daily secs) }
        match strat.after_trading_end d eng3 with
        | Except.error _ => Except.error eng3
        | Except.ok os3 =>
          let eng4 := eng3.submit os3
          Except.ok { eng4 with portfolio := eng4.portfolio.record d }

/-- The full price table returned by `DataProvider.get_price_data`: rows
are (date, security row) pairs; `isDatetimeIndex` records whether the
pandas index is a `DatetimeIndex` (checked at lines 102-107) and
`hasSecurityColumn` whether the table carries a `security` column
(checked at lines 102 and 112). -/
structure PriceData where
  isDatetimeIndex : Bool
  hasSecurityColumn : Bool
  rows : List (ℕ × SecRow)

/-- The day's slice of the full table (`run`, lines 112-117): with a
`security` column, the DataFrame of the date's rows; without one,
`all_data.loc[current_date]` yields a Series when the date labels exactly
one row and a DataFrame otherwise. -/
def dailySlice (data : PriceData) (d : ℕ) : DailyData :=
  let rs := (data.rows.filter (fun r => r.1 = d)).map (fun r => r.2)
  if data.hasSecurityColumn then DailyData.table rs
  else
    match rs with
    | [r] => DailyData.series r
    | _ => DailyData.plain rs

/-- `sorted(all_data.index.unique()) if isinstance(..., DatetimeIndex) else []`
(lines 102-107): the sorted distinct dates, or no dates at all when the
index is not a DatetimeIndex. -/
def tradingDates (data : PriceData) : List ℕ :=
  if data.isDatetimeIndex then
    ((data.rows.map Prod.fst).dedup).mergeSort (fun a b => a ≤ b)
  else []

/-- One iteration of the date loop with its `try`/`except` (lines 109-171):
an exception during the date is caught and the loop continues from the
state the date had reached when the exception was raised — the partial
mutations of the date are retained. -/
def stepDate (strat : Strategy) (data : PriceData) (secs : List String)
    (eng : Engine) (d : ℕ) : Engine :=
  match processDate strat secs d (dailySlice data d) eng with
  | Except.ok e => e
  | Except.error e => e

/-- The two fatal configuration failures of `run` (lines 81-95). -/
inductive RunError where
  | noStrategy
  | noData
deriving DecidableEq, Repr

/-- `series.pct_change().fillna(0)` (lines 249, 312): first entry 0, then
`(vᵢ − vᵢ₋₁) / vᵢ₋₁`.  Rational division by zero is 0, which matches
`fillna(0)` turning the `0/0` NaN into 0. -/
def pctChange : List ℚ → List ℚ
  | [] => []
  | x :: xs => 0 :: List.zipWith (fun prev cur => (cur - prev) / prev) (x :: xs) xs

/-- `pandas` series mean: sum / length. -/
def mean (l : List ℚ) : ℚ := l.sum / (l.length : ℚ)

/-- The square of the `pandas` sample standard deviation (`std()`,
`ddof = 1`): `none` embeds the NaN produced on series of length ≤ 1. -/
def sampleVar (l : List ℚ) : Option ℚ :=
  if l.length ≤ 1 then none
  else some ((l.map (fun x => (x - mean l) ^ 2)).sum / ((l.length : ℚ) - 1))

/-- Line 254: `returns_pct.mean() / returns_pct.std() * (252 ** 0.5) if
returns_pct.std() > 0 else 0`.  `std > 0` iff the sample variance is > 0;
a NaN std (length ≤ 1 series) fails the comparison, giving 0. -/
noncomputable def sharpeOfHistory (vals : List ℚ) : ℝ :=
  let pct := pctChange vals
  match sampleVar pct with
  | some v => if 0 < v then ((mean pct : ℚ) : ℝ) / Real.sqrt (v : ℝ) * Real.sqrt 252
              else 0
  | none => 0

/-- Line 253: `(1 + total_return) ** (252 / len(returns)) - 1 if
len(returns) > 0 else 0`. -/
noncomputable def annualReturn (total_return : ℚ) (n : ℕ) : ℝ :=
  if 0 < n then ((1 + total_return : ℚ) : ℝ) ^ ((252 : ℝ) / (n : ℝ)) - 1 else 0

/-- `series.cumprod()`: running products. -/
def cumprodAux (acc : ℚ) : List ℚ → List ℚ
  | [] => []
  | x :: xs => (acc * x) :: cumprodAux (acc * x) xs

/-- `series.cumprod()` from an initial accumulator of 1. -/
def cumprod (l : List ℚ) : List ℚ := cumprodAux 1 l

/-- `series.expanding().max()` after the first element. -/
def runningMaxAux (m : ℚ) : List ℚ → List ℚ
  | [] => []
  | x :: xs => (max m x) :: runningMaxAux (max m x) xs

/-- `series.expanding().max()`: running maxima. -/
def runningMax : List ℚ → List ℚ
  | [] => []
  | x :: xs => x :: runningMaxAux x xs

/-- `series.min()` of a nonempty series; 0 on the empty list (unreachable:
the caller guards zero-length histories). -/
def listMin : List ℚ → ℚ
  | [] => 0
  | x :: xs => xs.foldl min x

/-- `BacktestEngine._calculate_max_drawdown(returns)` (lines 307-315). -/
def maxDrawdown (returns : List ℚ) : ℚ :=
  if returns.length = 0 then 0
  else
    let cumulative := cumprod ((pctChange returns).map (fun x => 1 + x))
    let dd := List.zipWith (fun c m => (c - m) / m) cumulative (runningMax cumulative)
    |listMin dd|

/-- One row of the trade ledger (lines 274-283).  `isBuy` embeds the
`'买入'`/`'卖出'` type string. -/
structure TradeEntry where
  date : ℕ
  security : String
  isBuy : Bool
  amount : ℚ
  price : ℚ
  value : ℚ
  commission : ℚ
  net_value : ℚ
deriving DecidableEq, Repr

/-- The ledger row built for one filled order (lines 261-283). -/
def tradeEntry (rate : ℚ) (o : Order) : TradeEntry :=
  let fa := o.fill_amount.getD 0
  let fp := o.fill_price.getD 0
  let value := |fa * fp|
  let commission := get_commission rate o
  { date := o.fill_time.getD 0,
    security := o.security,
    isBuy := 0 < fa,
    amount := |fa|,
    price := fp,
    value := value,
    commission := commission,
    net_value := if 0 < fa then -(value + commission) else value - commission }

/-- Lines 258-286: one row per filled order that has a fill time, then
sorted by fill date.  The code sorts the `'%Y-%m-%d %H:%M:%S'` date
strings, whose lexicographic order is chronological; dates here are ℕ. -/
def tradeHistory (om : OrderManager) : List TradeEntry :=
  (((get_filled_orders om).filter (fun o => o.fill_time.isSome)).map
      (tradeEntry om.commission_rate)).mergeSort (fun a b => a.date ≤ b.date)

/-- The `metrics` entry of the results dict (lines 292-298). -/
structure Metrics where
  total_return : ℚ
  annual_return : ℝ
  sharpe : ℝ
  max_drawdown : ℚ
  total_trades : ℕ

/-- The results dict returned by `run` (lines 288-305). -/
structure RunResult where
  summary : Summary
  returns : List ℚ
  returns_pct : List ℚ
  metrics : Metrics
  history_dates : List ℕ
  history_total_value : List ℚ
  history_cash : List ℚ
  trade_history : List TradeEntry

/-- `BacktestEngine._generate_results` (lines 243-305). -/
noncomputable def generateResults (eng : Engine) : RunResult :=
  let summary := eng.portfolio.get_summary
  let returns := eng.portfolio.total_value_history
  let total_return := summary.total_profit_rate
  { summary := summary,
    returns := returns,
    returns_pct := pctChange returns,
    metrics :=
      { total_return := total_return,
        annual_return := annualReturn total_return returns.length,
        sharpe := sharpeOfHistory returns,
        max_drawdown := maxDrawdown returns,
        total_trades := (get_filled_orders eng.order_manager).length },
    history_dates := eng.portfolio.date_history,
    history_total_value := returns,
    history_cash := eng.portfolio.cash_history,
    trade_history := tradeHistory eng.order_manager }

/-- `BacktestEngine.run` (lines 62-177): fatal configuration checks, the
date loop with per-date exception recovery, then result generation. -/
noncomputable def run (eng₀ : Engine) (strat? : Option Strategy)
    (data : PriceData) (secs : List String) :
    Except RunError (Engine × RunResult) :=
  match strat? with
  | none => Except.error RunError.noStrategy
  | some strat =>
    if data.rows.length = 0 then Except.error RunError.noData
    else
      let eng := (tradingDates data).foldl (stepDate strat data secs) eng₀
      Except.ok (eng, generateResults eng)

/-! Helper lemmas. -/

/-- `add_position` never touches cash (spec §4.1: no side effect on cash). -/
theorem add_position_cash (p : Portfolio) (sec : String) (a pr : ℚ) :
    (p.add_position sec a pr).cash = p.cash := by
  unfold Portfolio.add_position
  cases p.get_position sec <;> rfl

/-- `remove_position` never touches cash. -/
theorem remove_position_cash (p : Portfolio) (sec : String) (a pr : ℚ) :
    (p.remove_position sec a pr).cash = p.cash := rfl

/-- A non-pending order is left completely alone by the settlement body
(it is filtered out of `pending_orders`, lines 183-185). -/
theorem settleOne_not_pending (rate slippage : ℚ) (date : ℕ) (daily : DailyData)
    (pf : Portfolio) (o : Order) (h : o.status ≠ OrderStatus.pending) :
    settleOne rate slippage date daily pf o = (pf, o) := by
  unfold settleOne
  simp [h]

/-- Reduction of the settlement body for a pending buy order with an
available price: the order fills at `p × (1 + slippage)` and the ledger
mutation happens iff cost ≤ cash (lines 211-228). -/
theorem settleOne_buy_eq (rate slippage : ℚ) (date : ℕ) (daily : DailyData)
    (pf : Portfolio) (o : Order) (p : ℚ)
    (hp : o.status = OrderStatus.pending) (hb : 0 < o.amount)
    (hpr : lookupClose daily o.security = some p) :
    settleOne rate slippage date daily pf o =
      ((if o.amount * (p * (1 + slippage)) + |o.amount * (p * (1 + slippage))| * rate ≤ pf.cash then
           Portfolio.add_position
             { pf with cash := pf.cash -
                 (o.amount * (p * (1 + slippage)) + |o.amount * (p * (1 + slippage))| * rate) }
             o.security o.amount (p * (1 + slippage))
         else pf),
        { o with status := OrderStatus.filled,
                 fill_price := some (p * (1 + slippage)),
                 fill_amount := some o.amount,
                 fill_time := if o.fill_time = none then some date else o.fill_time }) := by
  unfold settleOne process_order get_commission
  cases hft : o.fill_time <;> simp [hp, hpr, hb, hft] <;> split <;> rfl

/-- Reduction of the settlement body for a pending sell order with an
available price: the order fills at `p × (1 − slippage)` and the ledger
mutation happens iff the position holds enough (lines 229-238). -/
theorem settleOne_sell_eq (rate slippage : ℚ) (date : ℕ) (daily : DailyData)
    (pf : Portfolio) (o : Order) (p : ℚ)
    (hp : o.status = OrderStatus.pending) (hs : ¬ 0 < o.amount)
    (hpr : lookupClose daily o.security = some p) :
    settleOne rate slippage date daily pf o =
      ((match pf.get_position o.security with
        | some pos =>
          if |o.amount| ≤ pos.amount then
            Portfolio.remove_position
              { pf with cash := pf.cash +
                  (|o.amount| * (p * (1 - slippage)) -
                    |o.amount * (p * (1 - slippage))| * rate) }
              o.security |o.amount| (p * (1 - slippage))
          else pf
        | none => pf),
        { o with status := OrderStatus.filled,
                 fill_price := some (p * (1 - slippage)),
                 fill_amount := some o.amount,
                 fill_time := if o.fill_time = none then some date else o.fill_time }) := by
  unfold settleOne process_order get_commission
  cases hft : o.fill_time <;>
    simp [hp, hpr, hs, hft] <;>
    cases pf.get_position o.security <;> simp <;> split <;> rfl

/-- Reduction of the settlement body for a pending order with no
available price: nothing happens (lines 206-208). -/
theorem settleOne_no_price (rate slippage : ℚ) (date : ℕ) (daily : DailyData)
    (pf : Portfolio) (o : Order)
    (hp : o.status = OrderStatus.pending)
    (hn : lookupClose daily o.security = none) :
    settleOne rate slippage date daily pf o = (pf, o) := by
  unfold settleOne
  simp [hp, hn]

/-- Claim C1: for a pending buy order, if cash before settlement is less
than fill_amount × fill_price + commission then the portfolio is left
completely unchanged, and consequently the settlement body preserves
cash ≥ 0 for buy orders. -/
theorem buy_settlement_insufficiency_preserves_cash
    (rate slippage : ℚ) (date : ℕ) (daily : DailyData)
    (pf : Portfolio) (o : Order)
    (hp : o.status = OrderStatus.pending) (hb : 0 < o.amount) :
    (∀ p, lookupClose daily o.security = some p →
        pf.cash < o.amount * (p * (1 + slippage)) +
          |o.amount * (p * (1 + slippage))| * rate →
        (settleOne rate slippage date daily pf o).1 = pf) ∧
    (0 ≤ pf.cash → 0 ≤ (settleOne rate slippage date daily pf o).1.cash) := by
  constructor
  · intro p hpr hlt
    rw [settleOne_buy_eq rate slippage date daily pf o p hp hb hpr]
    simp only
    rw [if_neg (not_le.mpr hlt)]
  · intro h0
    cases hpr : lookupClose daily o.security with
    | none => rw [settleOne_no_price rate slippage date daily pf o hp hpr]; exact h0
    | some p =>
      rw [settleOne_buy_eq rate slippage date daily pf o p hp hb hpr]
      simp only
      split
      case isTrue h => rw [add_position_cash]; simp only; linarith
      case isFalse h => exact h0

/-- Claim C1 witness: a buy of 1,000,000 shares at price 100 against cash
1,000,000 leaves the portfolio unchanged and cash nonnegative. -/
theorem buy_settlement_insufficiency_preserves_cash_witness :
    (mkOrder "A" 1000000).status = OrderStatus.pending ∧
    (0 : ℚ) < (mkOrder "A" 1000000).amount ∧
    (settleOne (3/10000) (1/1000) 0 (DailyData.table [⟨"A", some 100⟩])
        (Portfolio.init 1000000) (mkOrder "A" 1000000)).1 = Portfolio.init 1000000 ∧
    0 ≤ (settleOne (3/10000) (1/1000) 0 (DailyData.table [⟨"A", some 100⟩])
        (Portfolio.init 1000000) (mkOrder "A" 1000000)).1.cash := by
  refine ⟨rfl, by norm_num [mkOrder], ?_, ?_⟩
  · exact (buy_settlement_insufficiency_preserves_cash (3/10000) (1/1000) 0
      (DailyData.table [⟨"A", some 100⟩]) (Portfolio.init 1000000) (mkOrder "A" 1000000) rfl
      (by norm_num [mkOrder])).1 100 rfl
      (by norm_num [mkOrder, Portfolio.init])
  · exact (buy_settlement_insufficiency_preserves_cash (3/10000) (1/1000) 0
      (DailyData.table [⟨"A", some 100⟩]) (Portfolio.init 1000000) (mkOrder "A" 1000000) rfl
      (by norm_num [mkOrder])).2 (by norm_num [Portfolio.init])

/-- Claim C2: for a pending sell order, if the portfolio holds no position
in the order's security, or holds strictly less than the requested sell
amount, the settlement body leaves the portfolio (cash and positions)
unchanged. -/
theorem sell_settlement_insufficiency_state_unchanged
    (rate slippage : ℚ) (date : ℕ) (daily : DailyData)
    (pf : Portfolio) (o : Order)
    (hp : o.status = OrderStatus.pending) (hs : o.amount < 0)
    (hins : pf.get_position o.security = none ∨
      ∃ pos, pf.get_position o.security = some pos ∧ pos.amount < |o.amount|) :
    (settleOne rate slippage date daily pf o).1 = pf := by
  cases hpr : lookupClose daily o.security with
  | none => rw [settleOne_no_price rate slippage date daily pf o hp hpr]
  | some p =>
    rw [settleOne_sell_eq rate slippage date daily pf o p hp (by linarith) hpr]
    simp only
    rcases hins with h | ⟨pos, hpos, hlt⟩
    · rw [h]
    · rw [hpos]
      simp only
      rw [if_neg (not_le.mpr hlt)]

/-- Claim C2 witness: selling 5 shares of a security that is not held
leaves the fresh portfolio unchanged. -/
theorem sell_settlement_insufficiency_state_unchanged_witness :
    (mkOrder "A" (-5)).status = OrderStatus.pending ∧
    (mkOrder "A" (-5)).amount < 0 ∧
    (Portfolio.init 1000000).get_position (mkOrder "A" (-5)).security = none ∧
    (settleOne (3/10000) (1/1000) 0 (DailyData.table [⟨"A", some 100⟩])
        (Portfolio.init 1000000) (mkOrder "A" (-5))).1 = Portfolio.init 1000000 := by
  refine ⟨rfl, by norm_num [mkOrder], rfl, ?_⟩
  exact sell_settlement_insufficiency_state_unchanged (3/10000) (1/1000) 0
    (DailyData.table [⟨"A", some 100⟩]) (Portfolio.init 1000000) (mkOrder "A" (-5)) rfl
    (by norm_num [mkOrder]) (Or.inl rfl)

/-- Claim C5 counterexample: in the single-security Series shape
(line 193) the engine never consults the order's security — a pending
order for "B", whose security has no row (hence no available price) in
the day's data, is nevertheless filled at the day's close of "A", not
left pending. -/
theorem no_price_single_security_filled_anyway :
    (∀ r ∈ (DailyData.series ⟨"A", some 100⟩).rows,
      r.security = (mkOrder "B" 3).security → r.close = none) ∧
    (settleOne (3/10000) (1/1000) 0 (DailyData.series ⟨"A", some 100⟩)
        (Portfolio.init 1000000) (mkOrder "B" 3)).2.status =
      OrderStatus.filled := by
  constructor
  · intro r hr hsec
    rw [List.mem_singleton.mp hr] at hsec
    exact absurd hsec (by decide)
  · rw [settleOne_buy_eq (3/10000) (1/1000) 0 (DailyData.series ⟨"A", some 100⟩)
      (Portfolio.init 1000000) (mkOrder "B" 3) 100 rfl (by norm_num [mkOrder]) rfl]

/-- Claim C5 (amended): in the security-column DataFrame shape (the
multi-security form, lines 196-200), a pending order whose security has
no available (present, non-NaN) close price among the day's rows is left
pending, with fill price and fill amount untouched, and the portfolio is
untouched; in the single-security shapes the engine instead applies the
day's close to any pending order regardless of its security. -/
theorem no_price_leaves_order_pending
    (rate slippage : ℚ) (date : ℕ) (rows : List SecRow)
    (pf : Portfolio) (o : Order)
    (hp : o.status = OrderStatus.pending)
    (hn : ∀ r ∈ rows, r.security = o.security → r.close = none) :
    settleOne rate slippage date (DailyData.table rows) pf o = (pf, o) ∧
    (settleOne rate slippage date (DailyData.table rows) pf o).2.status =
      OrderStatus.pending ∧
    (settleOne rate slippage date (DailyData.table rows) pf o).2.fill_price =
      o.fill_price ∧
    (settleOne rate slippage date (DailyData.table rows) pf o).2.fill_amount =
      o.fill_amount := by
  have hl : lookupClose (DailyData.table rows) o.security = none := by
    unfold lookupClose
    dsimp only
    cases hf : List.find? (fun r => r.security = o.security) rows with
    | none => rfl
    | some r =>
      have hm := List.mem_of_find?_eq_some hf
      have hs := List.find?_some hf
      simp only [Option.some_bind]
      exact hn r hm (by simpa using hs)
  have h := settleOne_no_price rate slippage date (DailyData.table rows) pf o hp hl
  rw [h]
  exact ⟨rfl, hp, rfl, rfl⟩

/-- Claim C5 witness: in the security-column shape, an order for a
security whose only row has a NaN close is left pending and unfilled. -/
theorem no_price_leaves_order_pending_witness :
    (mkOrder "B" 3).status = OrderStatus.pending ∧
    (∀ r ∈ [(⟨"B", none⟩ : SecRow)],
      r.security = (mkOrder "B" 3).security → r.close = none) ∧
    settleOne (3/10000) (1/1000) 0 (DailyData.table [⟨"B", none⟩])
      (Portfolio.init 1000000) (mkOrder "B" 3) = (Portfolio.init 1000000, mkOrder "B" 3) ∧
    (settleOne (3/10000) (1/1000) 0 (DailyData.table [⟨"B", none⟩])
      (Portfolio.init 1000000) (mkOrder "B" 3)).2.status = OrderStatus.pending := by
  have hn : ∀ r ∈ [(⟨"B", none⟩ : SecRow)],
      r.security = (mkOrder "B" 3).security → r.close = none := by
    intro r hr _
    rw [List.mem_singleton.mp hr]
  have h := no_price_leaves_order_pending (3/10000) (1/1000) 0 [⟨"B", none⟩]
    (Portfolio.init 1000000) (mkOrder "B" 3) rfl hn
  exact ⟨rfl, hn, h.1, h.2.1⟩

/-- Claim C7: a pending order always fills, a buy at
`current_price × (1 + slippage)` and a sell at
`current_price × (1 − slippage)`, with commission
|fill_amount × fill_price| × commission_rate; in the spec scenario
(cash 1,000,000, price 100, buy 1,000 shares, rate 0.0003, slippage
0.001) the fill price is 100.1, the commission 30.03 and the cash after
the fill 899,869.97. -/
theorem fill_price_commission_model (slippage rate p : ℚ) (o : Order)
    (hp : o.status = OrderStatus.pending) :
    ((process_order slippage o p).1 = true ∧
     (process_order slippage o p).2.fill_amount = some o.amount ∧
     (process_order slippage o p).2.fill_price =
       some (if 0 < o.amount then p * (1 + slippage) else p * (1 - slippage)) ∧
     get_commission rate (process_order slippage o p).2 =
       |o.amount * (if 0 < o.amount then p * (1 + slippage) else p * (1 - slippage))| * rate) ∧
    ((settleOne (3/10000) (1/1000) 1 (DailyData.table [⟨"A", some 100⟩]) (Portfolio.init 1000000)
        (mkOrder "A" 1000)).2.fill_price = some (1001/10) ∧
     get_commission (3/10000) (settleOne (3/10000) (1/1000) 1 (DailyData.table [⟨"A", some 100⟩])
        (Portfolio.init 1000000) (mkOrder "A" 1000)).2 = 3003/100 ∧
     (settleOne (3/10000) (1/1000) 1 (DailyData.table [⟨"A", some 100⟩]) (Portfolio.init 1000000)
        (mkOrder "A" 1000)).1.cash = 89986997/100) := by
  have hb : (0:ℚ) < (mkOrder "A" 1000).amount := by norm_num [mkOrder]
  have he := settleOne_buy_eq (3/10000) (1/1000) 1 (DailyData.table [⟨"A", some 100⟩])
    (Portfolio.init 1000000) (mkOrder "A" 1000) 100 rfl hb rfl
  constructor
  · unfold process_order get_commission
    simp [hp]
  · rw [he]
    refine ⟨?_, ?_, ?_⟩
    · norm_num [mkOrder]
    · norm_num [mkOrder, get_commission]
    · have hcost : (mkOrder "A" 1000).amount * (100 * (1 + 1/1000)) +
          |(mkOrder "A" 1000).amount * (100 * (1 + 1/1000))| * (3/10000) ≤
          (Portfolio.init 1000000).cash := by norm_num [mkOrder, Portfolio.init]
      simp only [if_pos hcost, add_position_cash]
      norm_num [mkOrder, Portfolio.init]

/-- Claim C7 witness: the fill model applied to a concrete pending sell
order at price 100 with slippage 0.001. -/
theorem fill_price_commission_model_witness :
    (mkOrder "A" (-10)).status = OrderStatus.pending ∧
    (process_order (1/1000) (mkOrder "A" (-10)) 100).2.fill_price =
      some (if 0 < (mkOrder "A" (-10)).amount then 100 * (1 + 1/1000)
            else 100 * (1 - 1/1000)) := by
  refine ⟨rfl, ?_⟩
  exact (fill_price_commission_model (1/1000) (3/10000) 100 (mkOrder "A" (-10)) rfl).1.2.2.1

/-- Status evolution of a single order through the settlement body: the
status is unchanged, or the order was pending and is now filled. -/
theorem settleOne_status_monotone (rate slippage : ℚ) (date : ℕ)
    (daily : DailyData) (pf : Portfolio) (o : Order) :
    (settleOne rate slippage date daily pf o).2.status = o.status ∨
    (o.status = OrderStatus.pending ∧
      (settleOne rate slippage date daily pf o).2.status = OrderStatus.filled) := by
  by_cases hp : o.status = OrderStatus.pending
  · cases hpr : lookupClose daily o.security with
    | none => rw [settleOne_no_price rate slippage date daily pf o hp hpr]; exact Or.inl rfl
    | some p =>
      by_cases hb : 0 < o.amount
      · rw [settleOne_buy_eq rate slippage date daily pf o p hp hb hpr]
        exact Or.inr ⟨hp, rfl⟩
      · rw [settleOne_sell_eq rate slippage date daily pf o p hp hb hpr]
        exact Or.inr ⟨hp, rfl⟩
  · rw [settleOne_not_pending rate slippage date daily pf o hp]
    exact Or.inl rfl

/-- The per-order conjunction of claim C6: non-pending orders are passed
over untouched, and status transitions are monotonic. -/
def OrderEvolution (o o' : Order) : Prop :=
  (o.status ≠ OrderStatus.pending → o' = o) ∧
  (o'.status = o.status ∨
    (o.status = OrderStatus.pending ∧ o'.status = OrderStatus.filled))

/-- Claim C6 lifted through the settlement loop over the backlog. -/
theorem settleList_evolution (rate slippage : ℚ) (date : ℕ)
    (daily : DailyData) :
    ∀ (os : List Order) (pf : Portfolio),
      List.Forall₂ OrderEvolution os (settleList rate slippage date daily pf os).2 := by
  intro os
  induction os with
  | nil => intro pf; exact List.Forall₂.nil
  | cons o os ih =>
    intro pf
    refine List.Forall₂.cons ⟨?_, ?_⟩ (ih _)
    · intro h
      rw [settleOne_not_pending rate slippage date daily pf o h]
    · exact settleOne_status_monotone rate slippage date daily pf o

/-- Claim C6: the engine's settlement step only ever settles orders whose
status is pending — an order already filled or rejected is returned
verbatim (so it is never settled twice on any later date) — and status
transitions are monotonic: a status either stays what it was or moves
pending → filled. -/
theorem order_transitions_monotone_never_settled_twice
    (eng : Engine) (date : ℕ) (daily : DailyData) :
    List.Forall₂ OrderEvolution eng.order_manager.orders
      (processOrders eng date daily).order_manager.orders := by
  unfold processOrders
  exact settleList_evolution _ _ date daily _ _

/-- Claim C6 witness: evolution of a two-order backlog (one already
filled, one pending) through one settlement step. -/
theorem order_transitions_monotone_never_settled_twice_witness :
    List.Forall₂ OrderEvolution
      [⟨"A", 5, OrderStatus.filled, some 10, some 5, some 0⟩, mkOrder "A" 3]
      ((processOrders
        ⟨Portfolio.init 1000000,
         ⟨3/10000, 1/1000,
          [⟨"A", 5, OrderStatus.filled, some 10, some 5, some 0⟩, mkOrder "A" 3]⟩⟩
        1 (DailyData.table [⟨"A", some 100⟩])).order_manager.orders) :=
  order_transitions_monotone_never_settled_twice
    ⟨Portfolio.init 1000000,
     ⟨3/10000, 1/1000,
      [⟨"A", 5, OrderStatus.filled, some 10, some 5, some 0⟩, mkOrder "A" 3]⟩⟩
    1 (DailyData.table [⟨"A", some 100⟩])

/-- Claim C3: `run` fails iff no strategy is attached or the price
dataset is empty; moreover the failure is decided before any date-pipeline
step, so it is independent of the engine state (it never reads or mutates
the portfolio, hence no snapshot is recorded). -/
theorem run_fatal_error_iff (eng₀ : Engine) (strat? : Option Strategy)
    (data : PriceData) (secs : List String) :
    ((∃ e, run eng₀ strat? data secs = Except.error e) ↔
      (strat? = none ∨ data.rows = [])) ∧
    (∀ e (eng₁ : Engine), run eng₀ strat? data secs = Except.error e →
      run eng₁ strat? data secs = Except.error e) := by
  cases strat? with
  | none =>
    refine ⟨⟨fun _ => Or.inl rfl, fun _ => ⟨RunError.noStrategy, rfl⟩⟩, ?_⟩
    intro e eng₁ h
    unfold run at h ⊢
    exact h
  | some s =>
    by_cases hr : data.rows.length = 0
    · have hrows : data.rows = [] := List.length_eq_zero.mp hr
      refine ⟨⟨fun _ => Or.inr hrows, fun _ => ⟨RunError.noData, ?_⟩⟩, ?_⟩
      · unfold run; dsimp only; rw [if_pos hr]
      · intro e eng₁ h
        unfold run at h ⊢
        dsimp only at h ⊢
        rw [if_pos hr] at h ⊢
        exact h
    · constructor
      · constructor
        · rintro ⟨e, h⟩
          unfold run at h
          dsimp only at h
          rw [if_neg hr] at h
          exact Except.noConfusion h
        · rintro (h | h)
          · exact Option.noConfusion h
          · exact absurd (by rw [h]; rfl) hr
      · intro e eng₁ h
        unfold run at h
        dsimp only at h
        rw [if_neg hr] at h
        exact Except.noConfusion h

/-- Claim C3 witness: with no strategy attached, `run` on a one-row
dataset fails. -/
theorem run_fatal_error_iff_witness :
    ∃ e, run (Engine.init 1000000 (3/10000) (1/1000)) none
      (⟨true, true, [(1, ⟨"A", some 100⟩)]⟩ : PriceData) ["A"] = Except.error e :=
  (run_fatal_error_iff (Engine.init 1000000 (3/10000) (1/1000)) none
    ⟨true, true, [(1, ⟨"A", some 100⟩)]⟩ ["A"]).1.mpr (Or.inl rfl)

/-- Claim C4: with a strategy attached and a non-empty dataset, `run`
always returns a result; a date on which the pipeline raises is abandoned
at the point of the exception — its remaining steps are skipped and the
loop continues with the state the date had reached (mutations applied
before the raise are retained, as the code's catch-and-continue
leaves them). -/
theorem per_date_exception_never_aborts_run (eng₀ : Engine)
    (strat : Strategy) (data : PriceData) (secs : List String)
    (h : data.rows ≠ []) :
    (∃ r, run eng₀ (some strat) data secs = Except.ok r) ∧
    (∀ (eng e' : Engine) (d : ℕ),
      processDate strat secs d (dailySlice data d) eng = Except.error e' →
      stepDate strat data secs eng d = e') := by
  constructor
  · unfold run
    dsimp only
    rw [if_neg (fun hh => h (List.length_eq_zero.mp hh))]
    exact ⟨_, rfl⟩
  · intro eng e' d he
    unfold stepDate
    rw [he]

/-- A strategy every callback of which raises. -/
def throwingStrat : Strategy :=
  ⟨fun _ _ => Except.error (), fun _ _ _ => Except.error (),
   fun _ _ => Except.error ()⟩

/-- Claim C4 witness: with a strategy whose every callback raises and a
one-row dataset, `run` still returns a result; the throwing date yields
`Except.error` carrying the state at the raise (here the pre-date state,
the first step having thrown), and the loop continues from it. -/
theorem per_date_exception_never_aborts_run_witness :
    (⟨true, true, [(1, ⟨"A", some 100⟩)]⟩ : PriceData).rows ≠ [] ∧
    (∃ r, run (Engine.init 1000000 (3/10000) (1/1000)) (some throwingStrat)
      ⟨true, true, [(1, ⟨"A", some 100⟩)]⟩ ["A"] = Except.ok r) ∧
    processDate throwingStrat ["A"] 1
        (dailySlice ⟨true, true, [(1, ⟨"A", some 100⟩)]⟩ 1)
        (Engine.init 1000000 (3/10000) (1/1000)) =
      Except.error (Engine.init 1000000 (3/10000) (1/1000)) ∧
    stepDate throwingStrat ⟨true, true, [(1, ⟨"A", some 100⟩)]⟩ ["A"]
        (Engine.init 1000000 (3/10000) (1/1000)) 1 =
      Engine.init 1000000 (3/10000) (1/1000) := by
  have h := per_date_exception_never_aborts_run
    (Engine.init 1000000 (3/10000) (1/1000)) throwingStrat
    ⟨true, true, [(1, ⟨"A", some 100⟩)]⟩ ["A"] (by simp)
  exact ⟨by simp, h.1, rfl, h.2 _ _ 1 rfl⟩

/-- Claim C10: a non-empty dataset whose index is not a DatetimeIndex
yields no trading dates at all: `run` returns normally with the engine
untouched, and the result's portfolio-history lists are empty. -/
theorem non_datetime_index_no_processing (cash rate slippage : ℚ)
    (strat : Strategy) (data : PriceData) (secs : List String)
    (h1 : data.rows ≠ []) (h2 : data.isDatetimeIndex = false) :
    run (Engine.init cash rate slippage) (some strat) data secs =
      Except.ok (Engine.init cash rate slippage,
        generateResults (Engine.init cash rate slippage)) ∧
    (generateResults (Engine.init cash rate slippage)).history_dates = [] ∧
    (generateResults (Engine.init cash rate slippage)).history_total_value = [] ∧
    (generateResults (Engine.init cash rate slippage)).history_cash = [] := by
  have hd : tradingDates data = [] := by unfold tradingDates; rw [h2]; rfl
  refine ⟨?_, rfl, rfl, rfl⟩
  unfold run
  dsimp only
  rw [if_neg (fun hh => h1 (List.length_eq_zero.mp hh))]
  rw [hd]
  rfl

/-- Claim C10 witness: concrete one-row dataset with a non-datetime
index. -/
theorem non_datetime_index_no_processing_witness :
    (⟨false, true, [(1, ⟨"A", some 100⟩)]⟩ : PriceData).rows ≠ [] ∧
    (⟨false, true, [(1, ⟨"A", some 100⟩)]⟩ : PriceData).isDatetimeIndex = false ∧
    run (Engine.init 1000000 (3/10000) (1/1000)) (some throwingStrat)
        (⟨false, true, [(1, ⟨"A", some 100⟩)]⟩ : PriceData) ["A"] =
      Except.ok (Engine.init 1000000 (3/10000) (1/1000),
        generateResults (Engine.init 1000000 (3/10000) (1/1000))) ∧
    (generateResults (Engine.init 1000000 (3/10000) (1/1000))).history_dates = [] := by
  have h := non_datetime_index_no_processing 1000000 (3/10000) (1/1000)
    throwingStrat ⟨false, true, [(1, ⟨"A", some 100⟩)]⟩ ["A"] (by simp) rfl
  exact ⟨by simp, rfl, h.1, h.2.1⟩

/-- Percentage changes within a constant series are all zero (tail part). -/
theorem pctChange_replicate_aux (c : ℚ) :
    ∀ n, List.zipWith (fun prev cur => (cur - prev) / prev) (c :: List.replicate n c)
      (List.replicate n c) = List.replicate n 0 := by
  intro n
  induction n with
  | zero => rfl
  | succ m ih =>
    simp only [List.replicate_succ, List.zipWith_cons_cons] at ih ⊢
    rw [ih, sub_self, zero_div]

/-- Percentage changes of a constant series are all zero. -/
theorem pctChange_replicate (n : ℕ) (c : ℚ) :
    pctChange (List.replicate n c) = List.replicate n 0 := by
  cases n with
  | zero => rfl
  | succ m =>
    simp only [List.replicate_succ, pctChange]
    rw [pctChange_replicate_aux c m]

/-- Mean of an all-zero series is zero. -/
theorem mean_replicate_zero (n : ℕ) : mean (List.replicate n (0:ℚ)) = 0 := by
  simp [mean]

/-- Sample variance of an all-zero series is undefined or zero. -/
theorem sampleVar_replicate_zero (n : ℕ) :
    sampleVar (List.replicate n (0:ℚ)) = none ∨
    sampleVar (List.replicate n (0:ℚ)) = some 0 := by
  by_cases h : (List.replicate n (0:ℚ)).length ≤ 1
  · left; simp only [sampleVar, if_pos h]
  · right
    simp only [sampleVar, if_neg h]
    rw [mean_replicate_zero]
    simp

/-- `pct_change` preserves the length of the series. -/
theorem pctChange_length (l : List ℚ) : (pctChange l).length = l.length := by
  cases l with
  | nil => rfl
  | cons x xs => simp [pctChange]

/-- With positive sample variance the code's Sharpe value is exactly
mean / stdev × √252. -/
theorem sharpe_formula (vals : List ℚ) (v : ℚ)
    (h : sampleVar (pctChange vals) = some v) (hv : 0 < v) :
    sharpeOfHistory vals =
      ((mean (pctChange vals) : ℚ) : ℝ) / Real.sqrt (v : ℝ) * Real.sqrt 252 := by
  unfold sharpeOfHistory
  dsimp only
  rw [h]
  simp [hv]

/-- With zero or undefined sample variance the code's Sharpe value is 0. -/
theorem sharpe_zero_of_var (vals : List ℚ)
    (h : sampleVar (pctChange vals) = none ∨ sampleVar (pctChange vals) = some 0) :
    sharpeOfHistory vals = 0 := by
  unfold sharpeOfHistory
  dsimp only
  rcases h with h | h <;> simp [h]

/-- Claim C8: the Sharpe ratio reported in the generated results is
computed from the percentage-change series of the recorded total-value
history as mean / stdev × √252 when the sample deviation is positive, and
is 0 when the deviation is zero (in particular on every flat series) or
undefined (series of length ≤ 1) — never an infinite or undefined
value. -/
theorem sharpe_guard_and_formula :
    (∀ (eng : Engine), (generateResults eng).metrics.sharpe =
        sharpeOfHistory eng.portfolio.total_value_history) ∧
    (∀ (vals : List ℚ) (v : ℚ), sampleVar (pctChange vals) = some v → 0 < v →
        sharpeOfHistory vals =
          ((mean (pctChange vals) : ℚ) : ℝ) / Real.sqrt (v : ℝ) * Real.sqrt 252) ∧
    (∀ vals : List ℚ,
        sampleVar (pctChange vals) = none ∨ sampleVar (pctChange vals) = some 0 →
        sharpeOfHistory vals = 0) ∧
    (∀ (n : ℕ) (c : ℚ), sharpeOfHistory (List.replicate n c) = 0) ∧
    (∀ vals : List ℚ, vals.length ≤ 1 → sharpeOfHistory vals = 0) := by
  refine ⟨fun _ => rfl, sharpe_formula, sharpe_zero_of_var, ?_, ?_⟩
  · intro n c
    apply sharpe_zero_of_var
    rw [pctChange_replicate]
    exact sampleVar_replicate_zero n
  · intro vals h
    apply sharpe_zero_of_var
    left
    unfold sampleVar
    rw [if_pos]
    rw [pctChange_length]
    exact h

/-- Claim C8 witness: on the two-point history [100, 101] the variance is
1/20000 and the formula applies; a 10-day flat series gives Sharpe 0. -/
theorem sharpe_guard_and_formula_witness :
    sampleVar (pctChange [100, 101]) = some (1/20000) ∧
    (0:ℚ) < 1/20000 ∧
    sharpeOfHistory [100, 101] =
      ((mean (pctChange [100, 101]) : ℚ) : ℝ) /
        Real.sqrt ((1/20000 : ℚ) : ℝ) * Real.sqrt 252 ∧
    sharpeOfHistory (List.replicate 10 (100:ℚ)) = 0 := by
  have hv : sampleVar (pctChange [100, 101]) = some (1/20000) := by
    norm_num [pctChange, sampleVar, mean]
  exact ⟨hv, by norm_num,
    sharpe_guard_and_formula.2.1 [100, 101] (1/20000) hv (by norm_num),
    sharpe_guard_and_formula.2.2.2.1 10 100⟩

/-- Claim C9: the generated trade history has exactly one entry per
filled order (given the engine invariant that filled orders carry a fill
time), is sorted chronologically by fill date, and each entry's signed
net cash flow is −(gross + commission) for a buy and gross − commission
for a sell, with gross = |fill_amount × fill_price|. -/
theorem trade_history_one_entry_sorted_net_flow (om : OrderManager)
    (h : ∀ o ∈ get_filled_orders om, o.fill_time.isSome) :
    (tradeHistory om).length = (get_filled_orders om).length ∧
    (tradeHistory om).Perm
      ((get_filled_orders om).map (tradeEntry om.commission_rate)) ∧
    (tradeHistory om).Pairwise (fun a b => a.date ≤ b.date) ∧
    (∀ o ∈ get_filled_orders om,
      (tradeEntry om.commission_rate o).value =
        |o.fill_amount.getD 0 * o.fill_price.getD 0| ∧
      (0 < o.fill_amount.getD 0 →
        (tradeEntry om.commission_rate o).net_value =
          -(|o.fill_amount.getD 0 * o.fill_price.getD 0| +
            get_commission om.commission_rate o)) ∧
      (o.fill_amount.getD 0 < 0 →
        (tradeEntry om.commission_rate o).net_value =
          |o.fill_amount.getD 0 * o.fill_price.getD 0| -
            get_commission om.commission_rate o)) := by
  have hf : (get_filled_orders om).filter (fun o => o.fill_time.isSome) =
      get_filled_orders om := List.filter_eq_self.mpr h
  have hperm : (tradeHistory om).Perm
      ((get_filled_orders om).map (tradeEntry om.commission_rate)) := by
    unfold tradeHistory
    rw [hf]
    exact List.mergeSort_perm _ _
  refine ⟨by rw [hperm.length_eq, List.length_map], hperm, ?_, ?_⟩
  · unfold tradeHistory
    refine List.Pairwise.imp ?_ (List.sorted_mergeSort ?_ ?_ _)
    · intro a b hab; exact of_decide_eq_true hab
    · intro a b c hab hbc
      simp only [decide_eq_true_eq] at hab hbc ⊢
      omega
    · intro a b
      simp only [Bool.or_eq_true, decide_eq_true_eq]
      omega
  · intro o _
    refine ⟨rfl, ?_, ?_⟩
    · intro h0
      unfold tradeEntry
      simp only [if_pos h0]
    · intro h0
      unfold tradeEntry
      simp only [if_neg (not_lt.mpr (le_of_lt h0))]

/-- A three-order backlog: a filled buy, a filled sell, one pending. -/
def sampleBacklog : OrderManager :=
  ⟨3/10000, 1/1000,
   [⟨"A", 5, OrderStatus.filled, some 10, some 5, some 2⟩,
    ⟨"B", -3, OrderStatus.filled, some 20, some (-3), some 1⟩,
    mkOrder "C" 7]⟩

/-- Claim C9 witness: the trade history of `sampleBacklog` has one entry
per filled order and is sorted by fill date. -/
theorem trade_history_one_entry_sorted_net_flow_witness :
    (∀ o ∈ get_filled_orders sampleBacklog, o.fill_time.isSome) ∧
    (tradeHistory sampleBacklog).length =
      (get_filled_orders sampleBacklog).length ∧
    (tradeHistory sampleBacklog).Pairwise (fun a b => a.date ≤ b.date) := by
  have h : ∀ o ∈ get_filled_orders sampleBacklog, o.fill_time.isSome := by
    intro o ho
    have hl : get_filled_orders sampleBacklog =
        [⟨"A", 5, OrderStatus.filled, some 10, some 5, some 2⟩,
         ⟨"B", -3, OrderStatus.filled, some 20, some (-3), some 1⟩] := rfl
    rw [hl, List.mem_cons, List.mem_singleton] at ho
    rcases ho with h1 | h1 <;> rw [h1] <;> rfl
  have ht := trade_history_one_entry_sorted_net_flow sampleBacklog h
  exact ⟨h, ht.1, ht.2.2.1⟩

end JQQuant
